import Mathlib

/-!
Shallow embedding of the WaterMarks backend core (queue manager, status
manager, chunked processor) and proofs about the claims of its design
specification.

Modelling conventions:
* Python dicts keyed by job id are modelled as insertion-ordered lists of
  records; assignment `d[k] = v` replaces the record with that key in place
  or appends a fresh one, matching CPython dict ordering semantics.
* Timestamps (`datetime.now()`, ISO strings) are modelled as natural-number
  seconds; `timedelta(minutes=1)` is 60, `timedelta(hours=1)` is 3600.
  Sorting ISO-8601 strings of a fixed format is order-isomorphic to sorting
  the instants they denote, so jobs carry `queued_at : Nat`.
* External measurements (`psutil`, `shutil.disk_usage`, cgroup files) are
  passed in as explicit `avail_ram`/`disk_free` arguments.
* `int(x * 4.0)` on file sizes is `x * 4`: the float product is exact for
  every size below 2^51, far above the configured 85MB upload cap.
* Log messages built with f-string numeric formatting are elided down to
  their fixed prefix; no claim concerns the formatted numbers.
* PDF documents are lists of abstract pages; `PdfWriter.add_page` over a
  page range is list slicing, `PdfMerger.append` is list concatenation.
-/

/-! ## Configuration (config.py defaults) -/

namespace config

def MIN_FREE_RAM_REQUIRED : Nat := 100 * 1024 * 1024

def RAM_USAGE_MULTIPLIER : Nat := 4

def DISK_USAGE_MULTIPLIER : Nat := 2

def MIN_RAM_BUFFER : Nat := 100 * 1024 * 1024

def MIN_DISK_BUFFER : Nat := 150 * 1024 * 1024

end config

/-! ## Job queue manager (modules/queue_manager.py)

A ledger entry models the dict stored in `self.jobs[job_id]`.  The keys
`error` and `downloaded_at` are absent until `mark_error` / `mark_downloaded`
add them; absence is modelled by `none`. -/

structure Job where
  job_id : String
  session_id : String
  file_path : String
  file_size : Nat
  chunk_size : Nat
  status : String
  queue_position : Nat
  queued_at : Nat
  started_at : Option Nat
  finished_at : Option Nat
  download_window_expires : Option Nat
  error : Option String
  downloaded_at : Option Nat
deriving DecidableEq

/-- Dict assignment `self.jobs[j.job_id] = j`: replace in place if the key
exists, else append. -/
def setJob (s : List Job) (j : Job) : List Job :=
  if s.any (fun k => k.job_id == j.job_id) then
    s.map (fun k => if k.job_id == j.job_id then j else k)
  else s ++ [j]

/-- Dict lookup `self.jobs.get(job_id)`. -/
def lookupJob (s : List Job) (job_id : String) : Option Job :=
  s.find? (fun k => k.job_id == job_id)

/-- In-place mutation `self.jobs[job_id][field] = ...` of an existing entry. -/
def updateJob (s : List Job) (job_id : String) (f : Job → Job) : List Job :=
  s.map (fun k => if k.job_id == job_id then f k else k)

/-- `get_queue_count`: number of jobs with status `queued`. -/
def get_queue_count (s : List Job) : Nat :=
  (s.filter (fun j => j.status == "queued")).length

/-- `get_processing_count`: number of jobs with status `processing`. -/
def get_processing_count (s : List Job) : Nat :=
  (s.filter (fun j => j.status == "processing")).length

/-- `add_job`: append a fresh `queued` record (overwriting any record that
already uses the same id, per dict assignment). -/
def add_job (s : List Job) (job_id session_id file_path : String)
    (file_size chunk_size now : Nat) : List Job :=
  let queue_count := get_queue_count s
  setJob s
    { job_id := job_id
      session_id := session_id
      file_path := file_path
      file_size := file_size
      chunk_size := chunk_size
      status := "queued"
      queue_position := queue_count + 1
      queued_at := now
      started_at := none
      finished_at := none
      download_window_expires := none
      error := none
      downloaded_at := none }

/-- The sort key `lambda x: x.get('queued_at', '')` as an ordering on jobs. -/
def jobLE (a b : Job) : Prop := a.queued_at ≤ b.queued_at

instance : DecidableRel jobLE := fun a b => Nat.decLe a.queued_at b.queued_at

instance : IsTotal Job jobLE := ⟨fun a b => Nat.le_total a.queued_at b.queued_at⟩

instance : IsTrans Job jobLE := ⟨fun _ _ _ h1 h2 => Nat.le_trans h1 h2⟩

/-- The queued jobs sorted by `queued_at`.  Python `list.sort` is a stable
sort by the key; `insertionSort` is a stable sort, so the two agree
extensionally.  Shared by `get_queue_position` and `pop_next_job`. -/
def sort_queued (s : List Job) : List Job :=
  List.insertionSort jobLE (s.filter (fun j => j.status == "queued"))

/-- The scan `for i, j in enumerate(queued_jobs): if j['job_id'] == job_id:
return i + 1` followed by `return 0`. -/
def find_pos : List Job → String → Nat
  | [], _ => 0
  | j :: rest, job_id =>
    if j.job_id == job_id then 1
    else
      match find_pos rest job_id with
      | 0 => 0
      | n => n + 1

/-- `get_queue_position`: 0 when the job is absent or not `queued`, else its
1-indexed slot in the queued jobs sorted by `queued_at`. -/
def get_queue_position (s : List Job) (job_id : String) : Nat :=
  match lookupJob s job_id with
  | none => 0
  | some j =>
    if j.status == "queued" then find_pos (sort_queued s) job_id else 0

/-- The filter defining `completed` inside `get_average_processing_time`. -/
def completed_jobs (s : List Job) : List Job :=
  s.filter (fun j =>
    (j.status == "finished" || j.status == "downloaded")
      && j.started_at.isSome && j.finished_at.isSome)

/-- Wall-clock duration `(finished - started).total_seconds()` of a completed
job (both timestamps present after the `completed_jobs` filter). -/
def duration (j : Job) : Int :=
  ((j.finished_at.getD 0 : Nat) : Int) - ((j.started_at.getD 0 : Nat) : Int)

/-- `get_average_processing_time`: sums the durations of the last ten
completed jobs but divides by the number of all completed jobs, exactly as
the source does (`int(total_time / len(completed))`; `int()` truncates toward
zero, which is `Int.tdiv`). -/
def get_average_processing_time (s : List Job) : Option Int :=
  let completed := completed_jobs s
  if completed.isEmpty then none
  else
    let lastTen := completed.drop (completed.length - 10)
    let total : Int := (lastTen.map duration).sum
    some (Int.tdiv total completed.length)

/-- `estimate_wait_time`: queue position times the average processing time,
defaulting to 120 seconds when no average exists (`if avg_time is None`). -/
def estimate_wait_time (s : List Job) (job_id : String) : Int :=
  let position := get_queue_position s job_id
  if position = 0 then 0
  else
    let avg_time := (get_average_processing_time s).getD 120
    (position : Int) * avg_time

/-- Python `x or 120` on an optional integer: `None` and `0` are falsy. -/
def py_or_int (x : Option Int) (d : Int) : Int :=
  match x with
  | none => d
  | some v => if v = 0 then d else v

/-- `estimate_space_available_time`. -/
def estimate_space_available_time (s : List Job) : Int :=
  if 0 < get_processing_count s then py_or_int (get_average_processing_time s) 120
  else 300

/-- `estimate_memory_available_time`. -/
def estimate_memory_available_time (s : List Job) : Int :=
  if 0 < get_processing_count s then py_or_int (get_average_processing_time s) 120
  else 60

/-- `check_disk_space`: needs `2 × required_bytes + 150MB` free.  The
formatted MB figures inside the failure message are elided. -/
def check_disk_space (disk_free required_bytes : Nat) : Bool × String :=
  let required := required_bytes * 2 + 150 * 1024 * 1024
  if disk_free < required then (false, "Insufficient disk space.")
  else (true, "OK")

structure RetryInfo where
  retry_after_seconds : Int
  reason : String
deriving DecidableEq

/-- `can_accept_job`: disk check first, then memory; reads the ledger only to
derive retry estimates and returns without mutating it. -/
def can_accept_job (s : List Job) (avail_ram disk_free file_size : Nat) :
    Bool × String × Option RetryInfo :=
  let checked := check_disk_space disk_free file_size
  if !checked.1 then
    (false, checked.2,
      some { retry_after_seconds := estimate_space_available_time s
             reason := "disk_space" })
  else if avail_ram < config.MIN_FREE_RAM_REQUIRED then
    (false, "Server memory insufficient. Please try again shortly.",
      some { retry_after_seconds := estimate_memory_available_time s
             reason := "memory" })
  else (true, "OK", none)

/-- `int(file_size * config.RAM_USAGE_MULTIPLIER)`. -/
def estimated_ram (j : Job) : Nat := j.file_size * config.RAM_USAGE_MULTIPLIER

/-- `int(file_size * config.DISK_USAGE_MULTIPLIER)`. -/
def estimated_disk (j : Job) : Nat := j.file_size * config.DISK_USAGE_MULTIPLIER

/-- `get_active_resource_usage`: estimated (ram, disk, count) over jobs whose
status is one of the active pipeline statuses. -/
def get_active_resource_usage (s : List Job) : Nat × Nat × Nat :=
  let active := s.filter (fun j =>
    j.status == "processing" || j.status == "splitting"
      || j.status == "adding_watermarks" || j.status == "merging")
  ((active.map estimated_ram).sum, (active.map estimated_disk).sum, active.length)

/-- `pop_next_job`: take the oldest queued job; admit it whenever the
estimated resource needs leave the configured buffers intact (subtractions
are Python ints, hence `Int` here, and may go negative).  The source's early
return on an empty queued list coincides with the empty-sort branch. -/
def pop_next_job (s : List Job) (avail_ram disk_free now : Nat) :
    Option Job × List Job :=
  match sort_queued s with
  | [] => (none, s)
  | next :: _ =>
    let ram_after : Int := (avail_ram : Int) - (estimated_ram next : Int)
    let disk_after : Int := (disk_free : Int) - (estimated_disk next : Int)
    if ram_after < (config.MIN_RAM_BUFFER : Int) then (none, s)
    else if disk_after < (config.MIN_DISK_BUFFER : Int) then (none, s)
    else
      let j := { next with status := "processing", started_at := some now }
      (some j, updateJob s next.job_id (fun _ => j))

/-- `mark_finished`: set status, stamp `finished_at`, open the one-minute
download window; no-op when the id is absent. -/
def mark_finished (s : List Job) (job_id : String) (now : Nat) : List Job :=
  if s.any (fun k => k.job_id == job_id) then
    updateJob s job_id (fun j =>
      { j with status := "finished", finished_at := some now,
               download_window_expires := some (now + 60) })
  else s

/-- `mark_error`: set status and error, stamp `finished_at`; no-op when the
id is absent. -/
def mark_error (s : List Job) (job_id err : String) (now : Nat) : List Job :=
  if s.any (fun k => k.job_id == job_id) then
    updateJob s job_id (fun j =>
      { j with status := "error", error := some err, finished_at := some now })
  else s

/-- `mark_downloaded`: set status, stamp `downloaded_at`; no-op when the id
is absent. -/
def mark_downloaded (s : List Job) (job_id : String) (now : Nat) : List Job :=
  if s.any (fun k => k.job_id == job_id) then
    updateJob s job_id (fun j =>
      { j with status := "downloaded", downloaded_at := some now })
  else s

/-- Deletion test of `cleanup_expired_jobs`: window expired, or downloaded,
or an error older than one hour (an unparsable/absent `finished_at` is
swallowed by the bare except and does not delete). -/
def should_delete (j : Job) (now : Nat) : Bool :=
  (match j.download_window_expires with
   | some e => decide (e < now)
   | none => false)
  || j.status == "downloaded"
  || (j.status == "error"
       && match j.finished_at with
          | some f => decide (f + 3600 < now)
          | none => false)

/-- `cleanup_expired_jobs`: drop every job that `should_delete` selects. -/
def cleanup_expired_jobs (s : List Job) (now : Nat) : List Job :=
  s.filter (fun j => !(should_delete j now))

/-- `delete_job`: remove a job by id when present. -/
def delete_job (s : List Job) (job_id : String) : List Job :=
  if s.any (fun k => k.job_id == job_id) then
    s.filter (fun k => !(k.job_id == job_id))
  else s

/-- The ledger states reachable from an empty queue file through the queue
manager's mutating operations. -/
inductive Reachable : List Job → Prop
  | init : Reachable []
  | add (s : List Job) (job_id session_id file_path : String)
      (file_size chunk_size now : Nat) :
      Reachable s → Reachable (add_job s job_id session_id file_path file_size chunk_size now)
  | pop (s : List Job) (avail_ram disk_free now : Nat) :
      Reachable s → Reachable (pop_next_job s avail_ram disk_free now).2
  | finish (s : List Job) (job_id : String) (now : Nat) :
      Reachable s → Reachable (mark_finished s job_id now)
  | err (s : List Job) (job_id msg : String) (now : Nat) :
      Reachable s → Reachable (mark_error s job_id msg now)
  | download (s : List Job) (job_id : String) (now : Nat) :
      Reachable s → Reachable (mark_downloaded s job_id now)
  | cleanup (s : List Job) (now : Nat) :
      Reachable s → Reachable (cleanup_expired_jobs s now)
  | delete (s : List Job) (job_id : String) :
      Reachable s → Reachable (delete_job s job_id)

/-! ## Status manager (modules/status_manager.py) -/

structure JobStatus where
  job_id : String
  status : String
  progress : Int
  message : String
  result_path : Option String
  error : Option String
  created_at : Nat
  updated_at : Nat
deriving DecidableEq

/-- Dict assignment `self._statuses[job_id] = status`. -/
def setStatus (s : List JobStatus) (j : JobStatus) : List JobStatus :=
  if s.any (fun k => k.job_id == j.job_id) then
    s.map (fun k => if k.job_id == j.job_id then j else k)
  else s ++ [j]

/-- `StatusManager.create_job`. -/
def create_job (s : List JobStatus) (job_id initial_message : String)
    (now : Nat) : JobStatus × List JobStatus :=
  let st : JobStatus :=
    { job_id := job_id, status := "uploading", progress := 0,
      message := initial_message, result_path := none, error := none,
      created_at := now, updated_at := now }
  (st, setStatus s st)

/-- The automatic progress table applied when the `status` argument is
supplied; an unrecognized status name leaves progress unchanged. -/
def auto_progress (st : String) (prev : Int) : Int :=
  if st == "uploading" then 10
  else if st == "splitting" then 30
  else if st == "adding_watermarks" then 50
  else if st == "merging" then 80
  else if st == "finished" then 100
  else if st == "error" then 0
  else prev

/-- `StatusManager.update_status`: `None` arguments are skipped; branches run
in source order (status with automatic progress, explicit clamped progress,
message, result path, error forcing status to error, updated_at). -/
def update_status (s : List JobStatus) (job_id : String)
    (status : Option String) (progress : Option Int) (message : Option String)
    (result_path : Option String) (error : Option String) (now : Nat) :
    Option JobStatus × List JobStatus :=
  match s.find? (fun k => k.job_id == job_id) with
  | none => (none, s)
  | some j =>
    let j1 := match status with
      | some st => { j with status := st, progress := auto_progress st j.progress }
      | none => j
    let j2 := match progress with
      | some p => { j1 with progress := max 0 (min 100 p) }
      | none => j1
    let j3 := match message with
      | some m => { j2 with message := m }
      | none => j2
    let j4 := match result_path with
      | some rp => { j3 with result_path := some rp }
      | none => j3
    let j5 := match error with
      | some e => { j4 with error := some e, status := "error" }
      | none => j4
    let j6 := { j5 with updated_at := now }
    (some j6, s.map (fun k => if k.job_id == job_id then j6 else k))

/-! ## Chunked processor (modules/processor.py) -/

/-- Python `range(start, stop, step)` for non-negative bounds and positive
step: the `⌈(stop - start) / step⌉` values `start + k * step` below `stop`,
which is the documented semantics of the builtin.  A zero step raises in
Python and yields `[]` here; the source never reaches it, since the effective
chunk size is positive for a non-empty document. -/
def pyRange (start stop step : Nat) : List Nat :=
  if step = 0 then []
  else (List.range ((stop - start + step - 1) / step)).map (fun k => start + k * step)

/-- Chunk metadata produced by the split phase.  File paths, the watermark
colour (a float triple) and the worker status field are elided; `pages` holds
the slice written to the chunk file. -/
structure ChunkInfo (α : Type) where
  chunk_id : Nat
  start_page : Nat
  end_page : Nat
  order : Nat
  pages : List α
deriving DecidableEq

/-- `split_pdf_into_chunks`: effective chunk size `min(chunk_size, total)`,
one chunk per start offset produced by the stepped range, each holding the
pages `start ≤ p < end` with `end = min(start + size, total)`. -/
def split_pdf_into_chunks {α : Type} (doc : List α) (chunk_size : Nat) :
    List (ChunkInfo α) :=
  let total_pages := doc.length
  let actual_chunk_size := min chunk_size total_pages
  (pyRange 0 total_pages actual_chunk_size).enum.map (fun ci =>
    let start_page := ci.2
    let end_page := min (start_page + actual_chunk_size) total_pages
    { chunk_id := ci.1, start_page := start_page, end_page := end_page,
      order := ci.1,
      pages := (doc.drop start_page).take (end_page - start_page) })

/-- `merge_chunks`: append every chunk document in the given order. -/
def merge_chunks {α : Type} (chunks : List (List α)) : List α :=
  chunks.flatten

/-! ## Specification-side definitions used for comparison -/

/-- The forward lifecycle order of the specification:
`queued → processing → {finished → downloaded} | error`.  A step either
leaves the state as it is or follows one of those arrows. -/
def forward_lifecycle (a b : String) : Prop :=
  a = b
  ∨ (a = "queued" ∧ b = "processing")
  ∨ (a = "processing" ∧ b = "finished")
  ∨ (a = "processing" ∧ b = "error")
  ∨ (a = "finished" ∧ b = "downloaded")

/-- The specification's wait-time average: mean duration of the last ten
completed jobs (the source instead divides the last-ten total by the number
of all completed jobs). -/
def spec_last10_average (s : List Job) : Option Int :=
  let completed := completed_jobs s
  if completed.isEmpty then none
  else
    let lastTen := completed.drop (completed.length - 10)
    some (Int.tdiv ((lastTen.map duration).sum) lastTen.length)

/-- A ledger with eleven completed jobs, each of which took exactly ten
seconds of processing, and one queued job: the input on which the source's
average and the specification's last-ten average disagree. -/
def elevenCompletedLedger : List Job :=
  (List.range 11).map (fun k =>
    { job_id := toString k, session_id := "s", file_path := "p",
      file_size := 0, chunk_size := 1, status := "finished",
      queue_position := 0, queued_at := k, started_at := some (k * 100),
      finished_at := some (k * 100 + 10),
      download_window_expires := some (k * 100 + 70),
      error := none, downloaded_at := none })
  ++ [{ job_id := "q", session_id := "s", file_path := "p", file_size := 0,
        chunk_size := 1, status := "queued", queue_position := 1,
        queued_at := 2000, started_at := none, finished_at := none,
        download_window_expires := none, error := none, downloaded_at := none }]

/-- A queued job with `queued_at = 5`, used as a concrete witness input. -/
def jobA5 : Job :=
  { job_id := "A", session_id := "s", file_path := "p", file_size := 1,
    chunk_size := 1, status := "queued", queue_position := 1,
    queued_at := 5, started_at := none, finished_at := none,
    download_window_expires := none, error := none, downloaded_at := none }

/-- A queued job with `queued_at = 9`, used as a concrete witness input. -/
def jobB9 : Job :=
  { job_id := "B", session_id := "s", file_path := "p", file_size := 1,
    chunk_size := 1, status := "queued", queue_position := 2,
    queued_at := 9, started_at := none, finished_at := none,
    download_window_expires := none, error := none, downloaded_at := none }

/-- A two-job ledger with distinct ids and distinct `queued_at` stamps. -/
def twoQueuedLedger : List Job := [jobA5, jobB9]

/-- A job already in `processing`, used as a concrete witness input. -/
def jobP : Job :=
  { job_id := "P", session_id := "s", file_path := "p", file_size := 1,
    chunk_size := 1, status := "processing", queue_position := 1,
    queued_at := 1, started_at := some 2, finished_at := none,
    download_window_expires := none, error := none, downloaded_at := none }

/-- The ledger reached by Add then MarkFinished on job `A`, and the record
it holds: the state used to witness the download-window invariant. -/
def markFinishedState : List Job :=
  mark_finished (add_job [] "A" "sess" "p" 1000 10 0) "A" 1

/-- The single record of `markFinishedState`. -/
def finishedA : Job :=
  { job_id := "A", session_id := "sess", file_path := "p", file_size := 1000,
    chunk_size := 10, status := "finished", queue_position := 1,
    queued_at := 0, started_at := none, finished_at := some 1,
    download_window_expires := some 61, error := none, downloaded_at := none }

/-! ## C4: admission-control decision structure -/

/-- C4 (amended): `can_accept_job` checks disk first and memory second.  It
rejects with reason `disk_space` and a space retry estimate exactly when free
disk is strictly below `2 × declared size + 150MB` (free disk equal to the
threshold is admitted); otherwise it rejects with reason `memory` when
effective available memory is strictly below the configured floor; otherwise
it admits.  The function only reads the ledger, which it takes and leaves as
a pure value. -/
theorem can_accept_job_decision (s : List Job)
    (avail_ram disk_free file_size : Nat) :
    (disk_free < file_size * 2 + 150 * 1024 * 1024 →
      can_accept_job s avail_ram disk_free file_size =
        (false, "Insufficient disk space.",
          some { retry_after_seconds := estimate_space_available_time s,
                 reason := "disk_space" }))
    ∧ (file_size * 2 + 150 * 1024 * 1024 ≤ disk_free →
        avail_ram < config.MIN_FREE_RAM_REQUIRED →
        can_accept_job s avail_ram disk_free file_size =
          (false, "Server memory insufficient. Please try again shortly.",
            some { retry_after_seconds := estimate_memory_available_time s,
                   reason := "memory" }))
    ∧ (file_size * 2 + 150 * 1024 * 1024 ≤ disk_free →
        config.MIN_FREE_RAM_REQUIRED ≤ avail_ram →
        can_accept_job s avail_ram disk_free file_size = (true, "OK", none)) := by
  refine ⟨fun h => ?_, fun h1 h2 => ?_, fun h1 h2 => ?_⟩
  · simp [can_accept_job, check_disk_space, h]
  · simp [can_accept_job, check_disk_space, Nat.not_lt.mpr h1, h2]
  · simp [can_accept_job, check_disk_space, Nat.not_lt.mpr h1, Nat.not_lt.mpr h2]

/-- Witness for C4 at a concrete input: with no free disk the call is
rejected with reason `disk_space`. -/
theorem can_accept_job_decision_witness :
    can_accept_job [] 0 0 0 =
      (false, "Insufficient disk space.",
        some { retry_after_seconds := estimate_space_available_time [],
               reason := "disk_space" }) :=
  (can_accept_job_decision [] 0 0 0).1 (by decide)

/-- Counterexample for C4 as stated: with declared size 1MB and free disk
exactly `2×1MB + 150MB`, the free disk does not exceed the threshold, yet
the job is admitted — the source rejects only on strict shortfall. -/
theorem admit_at_exact_disk_threshold :
    can_accept_job [] (1000 * 1024 * 1024) (2 * 1048576 + 150 * 1024 * 1024)
        1048576 = (true, "OK", none)
    ∧ ¬ (2 * 1048576 + 150 * 1024 * 1024 > 1048576 * 2 + 150 * 1024 * 1024) := by
  constructor
  · decide
  · decide

/-! ## C5: the error branch of the status tracker -/

/-- C5 (amended): supplying an error message forces `status = "error"` and
records the message on an existing record, regardless of the record's prior
state and of whichever other arguments (status, progress, message, result
path) are supplied in the same call — the error branch runs last and
overwrites the status.  Progress, however, is reset to 0 only by the
automatic assignment that accompanies an explicit `status := "error"`
argument; an error-only update keeps the record's prior progress. -/
theorem error_update_forces_status (ss : List JobStatus)
    (job_id e : String) (now : Nat) (j : JobStatus)
    (h : ss.find? (fun k => k.job_id == job_id) = some j) :
    (∀ (st msg rp : Option String) (pr : Option Int),
      ∃ r, (update_status ss job_id st pr msg rp (some e) now).1 = some r
        ∧ r.status = "error" ∧ r.error = some e ∧ r.updated_at = now)
    ∧ (update_status ss job_id none none none none (some e) now).1 =
      some { j with status := "error", error := some e, updated_at := now }
    ∧ (update_status ss job_id (some "error") none none none (some e) now).1 =
      some { j with status := "error", progress := 0, error := some e,
                    updated_at := now } := by
  refine ⟨?_, ?_, ?_⟩
  · intro st msg rp pr
    unfold update_status
    rw [h]
    exact ⟨_, rfl, rfl, rfl, rfl⟩
  · unfold update_status
    rw [h]
  · unfold update_status
    rw [h]
    rfl

/-- Witness for C5 at a concrete input: supplying an error together with a
status, progress, message and result path still yields status error with the
message recorded, and an error-only update on a record at progress 50 yields
status error with progress still 50. -/
theorem error_update_forces_status_witness :
    (∃ r, (update_status
        [{ job_id := "job-1", status := "adding_watermarks", progress := 50,
           message := "m", result_path := none, error := none,
           created_at := 0, updated_at := 1 }]
        "job-1" (some "merging") (some 70) (some "msg") (some "out.pdf")
        (some "boom") 2).1 = some r
      ∧ r.status = "error" ∧ r.error = some "boom" ∧ r.updated_at = 2)
    ∧ (update_status
        [{ job_id := "job-1", status := "adding_watermarks", progress := 50,
           message := "m", result_path := none, error := none,
           created_at := 0, updated_at := 1 }]
        "job-1" none none none none (some "boom") 2).1 =
      some { job_id := "job-1", status := "error", progress := 50,
             message := "m", result_path := none, error := some "boom",
             created_at := 0, updated_at := 2 } :=
  ⟨(error_update_forces_status
      [{ job_id := "job-1", status := "adding_watermarks", progress := 50,
         message := "m", result_path := none, error := none,
         created_at := 0, updated_at := 1 }]
      "job-1" "boom" 2
      { job_id := "job-1", status := "adding_watermarks", progress := 50,
        message := "m", result_path := none, error := none,
        created_at := 0, updated_at := 1 }
      (by decide)).1 (some "merging") (some "msg") (some "out.pdf") (some 70),
   (error_update_forces_status
      [{ job_id := "job-1", status := "adding_watermarks", progress := 50,
         message := "m", result_path := none, error := none,
         created_at := 0, updated_at := 1 }]
      "job-1" "boom" 2
      { job_id := "job-1", status := "adding_watermarks", progress := 50,
        message := "m", result_path := none, error := none,
        created_at := 0, updated_at := 1 }
      (by decide)).2.1⟩

/-- Counterexample for C5 as stated: after the pipeline has reported 50%
progress, an update supplying only an error message leaves progress at 50,
not 0. -/
theorem error_update_keeps_progress :
    ∃ j, (update_status
        (update_status ((create_job [] "job-1" "Job created" 0).2)
          "job-1" (some "adding_watermarks") none none none none 1).2
        "job-1" none none none none (some "boom") 2).1 = some j
      ∧ j.status = "error" ∧ j.progress = 50 ∧ ¬ j.progress = 0 := by decide

/-! ## C7: the wait-time estimate divides by the wrong count -/

/-- C7: on a ledger with eleven completed jobs of ten seconds each, the
source sums the durations of the last ten (100 seconds) but divides by all
eleven completed jobs, giving 9; the specification's average of the last ten
is 10.  The queued job at position 1 therefore gets the estimate 9 where the
claim requires 10. -/
theorem average_divides_by_all_completed :
    get_average_processing_time elevenCompletedLedger = some 9
    ∧ spec_last10_average elevenCompletedLedger = some 10
    ∧ get_queue_position elevenCompletedLedger "q" = 1
    ∧ estimate_wait_time elevenCompletedLedger "q" = 9 := by decide

/-! ## C10: operations on absent job ids are no-ops -/

/-- C10: when the job id is absent, the queue's mark operations return the
ledger unchanged and create no record, and the status tracker's update
returns `None` and leaves its map unchanged, whatever other arguments are
supplied. -/
theorem absent_id_operations_noop (s : List Job) (ss : List JobStatus)
    (job_id err_msg : String) (now : Nat)
    (st msg rp er : Option String) (pr : Option Int) :
    (lookupJob s job_id = none →
      mark_finished s job_id now = s
      ∧ mark_error s job_id err_msg now = s
      ∧ mark_downloaded s job_id now = s)
    ∧ (ss.find? (fun k => k.job_id == job_id) = none →
      update_status ss job_id st pr msg rp er now = (none, ss)) := by
  constructor
  · intro h
    have hany : s.any (fun k => k.job_id == job_id) = false := by
      simp only [List.any_eq_false]
      intro x hx
      exact List.find?_eq_none.mp h x hx
    refine ⟨?_, ?_, ?_⟩ <;> simp [mark_finished, mark_error, mark_downloaded, hany]
  · intro h
    simp [update_status, h]

/-- Witness for C10 at a concrete input: the id `nope` is absent from the
empty stores and every operation is a no-op. -/
theorem absent_id_operations_noop_witness :
    (mark_finished [] "nope" 0 = ([] : List Job)
      ∧ mark_error [] "nope" "e" 0 = ([] : List Job)
      ∧ mark_downloaded [] "nope" 0 = ([] : List Job))
    ∧ update_status [] "nope" none none none none none 0 =
        (none, ([] : List JobStatus)) :=
  ⟨(absent_id_operations_noop [] [] "nope" "e" 0 none none none none none).1 rfl,
   (absent_id_operations_noop [] [] "nope" "e" 0 none none none none none).2 rfl⟩

/-! ## Concrete counterexamples for C1, C2 and C6 -/

/-- Counterexample for C1: starting from the empty ledger, adding two jobs
and popping twice with ample resources leaves two jobs in `processing` at a
reachable execution point — `pop_next_job` admits a queued job while another
is already processing. -/
theorem two_jobs_processing_reachable :
    get_processing_count
        ((pop_next_job
          (add_job (pop_next_job (add_job [] "A" "sess" "p" 1000 10 0)
              1000000000000 1000000000000 1).2
            "B" "sess" "p" 1000 10 2)
          1000000000000 1000000000000 3).2) = 2
    ∧ Reachable ((pop_next_job
          (add_job (pop_next_job (add_job [] "A" "sess" "p" 1000 10 0)
              1000000000000 1000000000000 1).2
            "B" "sess" "p" 1000 10 2)
          1000000000000 1000000000000 3).2) :=
  ⟨by decide,
   Reachable.pop _ _ _ _ (Reachable.add _ _ _ _ _ _ _
     (Reachable.pop _ _ _ _ (Reachable.add _ _ _ _ _ _ _ Reachable.init)))⟩

/-- Counterexample for C2: the operation sequence Add, MarkFinished takes a
job straight from `queued` to `finished` without it ever having been
`processing` (its `started_at` stamp, set only by `pop_next_job`, is still
absent). -/
theorem finished_without_processing :
    (∃ j, lookupJob (add_job [] "A" "sess" "p" 1000 10 0) "A" = some j
        ∧ j.status = "queued")
    ∧ (∃ j, lookupJob (mark_finished (add_job [] "A" "sess" "p" 1000 10 0) "A" 1)
          "A" = some j
        ∧ j.status = "finished" ∧ j.started_at = none) := by decide

/-- Counterexample for C6: after Add, PopNext, MarkFinished, MarkDownloaded
the job is in state `downloaded` and still carries its
`download_window_expires` stamp, so the field is not set only in state
`finished`; the state is reachable. -/
theorem downloaded_keeps_download_window :
    (∃ j, lookupJob
        (mark_downloaded
          (mark_finished ((pop_next_job (add_job [] "A" "sess" "p" 1000 10 0)
              1000000000000 1000000000000 1).2) "A" 2) "A" 3) "A" = some j
      ∧ j.status = "downloaded" ∧ j.download_window_expires = some 62)
    ∧ Reachable (mark_downloaded
        (mark_finished ((pop_next_job (add_job [] "A" "sess" "p" 1000 10 0)
            1000000000000 1000000000000 1).2) "A" 2) "A" 3) :=
  ⟨by decide,
   Reachable.download _ _ _ (Reachable.finish _ _ _
     (Reachable.pop _ _ _ _ (Reachable.add _ _ _ _ _ _ _ Reachable.init)))⟩

/-! ## Helper lemmas on the stepped range and ceiling division -/

theorem pyRange_length (start stop step : Nat) (hs : 0 < step) :
    (pyRange start stop step).length = (stop - start + step - 1) / step := by
  simp [pyRange, Nat.pos_iff_ne_zero.mp hs]

theorem pyRange_getElem (start stop step i : Nat) (hs : 0 < step)
    (h : i < (pyRange start stop step).length) :
    (pyRange start stop step).get ⟨i, h⟩ = start + i * step := by
  have hne : ¬ step = 0 := Nat.pos_iff_ne_zero.mp hs
  simp [pyRange, hne]

theorem mul_lt_of_lt_ceil {P acs i n : Nat} (hacs : 0 < acs)
    (hn : n = (P + acs - 1) / acs) (hi : i < n) : i * acs < P := by
  have h1 : (i + 1) * acs ≤ P + acs - 1 := by
    refine (Nat.le_div_iff_mul_le hacs).mp ?_
    omega
  rw [Nat.succ_mul] at h1
  generalize i * acs = m at h1 ⊢
  omega

theorem le_mul_ceil {P acs n : Nat} (hacs : 0 < acs)
    (hn : n = (P + acs - 1) / acs) : P ≤ n * acs := by
  by_contra hcon
  have h1 : (n + 1) * acs ≤ P + acs - 1 := by
    rw [Nat.succ_mul]
    generalize n * acs = m at hcon ⊢
    omega
  have h2 : n + 1 ≤ (P + acs - 1) / acs := (Nat.le_div_iff_mul_le hacs).mpr h1
  rw [← hn] at h2
  omega

theorem ceil_min_eq {P C : Nat} (hP : 1 ≤ P) (hC : 1 ≤ C) :
    (P + min C P - 1) / min C P = (P + C - 1) / C := by
  rcases le_total C P with h | h
  · rw [min_eq_left h]
  · rw [min_eq_right h]
    have l1 : (P + P - 1) / P = 1 := Nat.div_eq_of_lt_le (by omega) (by omega)
    have l2 : (P + C - 1) / C = 1 := Nat.div_eq_of_lt_le (by omega) (by omega)
    rw [l1, l2]

theorem split_length {α : Type} (doc : List α) (C : Nat)
    (hacs : 0 < min C doc.length) :
    (split_pdf_into_chunks doc C).length
      = (doc.length + min C doc.length - 1) / min C doc.length := by
  simp [split_pdf_into_chunks, pyRange_length _ _ _ hacs]

theorem split_getElem {α : Type} (doc : List α) (C i : Nat)
    (hacs : 0 < min C doc.length)
    (h : i < (split_pdf_into_chunks doc C).length) :
    (split_pdf_into_chunks doc C).get ⟨i, h⟩ =
      { chunk_id := i,
        start_page := i * min C doc.length,
        end_page := min (i * min C doc.length + min C doc.length) doc.length,
        order := i,
        pages := (doc.drop (i * min C doc.length)).take
          (min (i * min C doc.length + min C doc.length) doc.length
            - i * min C doc.length) } := by
  have hlen : i < (pyRange 0 doc.length (min C doc.length)).length := by
    rw [pyRange_length _ _ _ hacs, Nat.sub_zero]
    rw [split_length doc C hacs] at h
    exact h
  have hget := pyRange_getElem 0 doc.length (min C doc.length) i hacs hlen
  simp only [List.get_eq_getElem] at hget
  simp only [split_pdf_into_chunks, List.get_eq_getElem, List.getElem_map,
    List.getElem_enum, hget, Nat.zero_add]

/-! ## C3: the split phase partitions the page range -/

/-- C3: for a document of `P >= 1` pages and requested chunk size `C >= 1`,
the split uses the effective chunk size `min C P` and produces exactly
`ceil(P / C)` chunks whose page ranges start at 0, end at `P`, are
contiguous, non-empty and non-overlapping (each range ends where the next
begins), with every range of the effective size except that the final one
may be shorter. -/
theorem split_chunk_ranges_cover {α : Type} (doc : List α) (C : Nat)
    (hP : 1 ≤ doc.length) (hC : 1 ≤ C) :
    (split_pdf_into_chunks doc C).length = (doc.length + C - 1) / C
    ∧ (∀ i (h : i < (split_pdf_into_chunks doc C).length),
        ((split_pdf_into_chunks doc C).get ⟨i, h⟩).start_page
            = i * min C doc.length
        ∧ ((split_pdf_into_chunks doc C).get ⟨i, h⟩).end_page
            = min ((i + 1) * min C doc.length) doc.length
        ∧ ((split_pdf_into_chunks doc C).get ⟨i, h⟩).start_page
            < ((split_pdf_into_chunks doc C).get ⟨i, h⟩).end_page
        ∧ ((split_pdf_into_chunks doc C).get ⟨i, h⟩).end_page ≤ doc.length)
    ∧ (∀ i (h : i + 1 < (split_pdf_into_chunks doc C).length),
        ((split_pdf_into_chunks doc C).get ⟨i, Nat.lt_of_succ_lt h⟩).end_page
          = ((split_pdf_into_chunks doc C).get ⟨i + 1, h⟩).start_page
        ∧ ((split_pdf_into_chunks doc C).get ⟨i, Nat.lt_of_succ_lt h⟩).end_page
            - ((split_pdf_into_chunks doc C).get ⟨i, Nat.lt_of_succ_lt h⟩).start_page
          = min C doc.length)
    ∧ (∀ h : 0 < (split_pdf_into_chunks doc C).length,
        ((split_pdf_into_chunks doc C).get ⟨0, h⟩).start_page = 0)
    ∧ (∀ h : 0 < (split_pdf_into_chunks doc C).length,
        ((split_pdf_into_chunks doc C).get
            ⟨(split_pdf_into_chunks doc C).length - 1, by omega⟩).end_page
          = doc.length
        ∧ ((split_pdf_into_chunks doc C).get
            ⟨(split_pdf_into_chunks doc C).length - 1, by omega⟩).end_page
            - ((split_pdf_into_chunks doc C).get
                ⟨(split_pdf_into_chunks doc C).length - 1, by omega⟩).start_page
          ≤ min C doc.length) := by
  set chunks := split_pdf_into_chunks doc C with hchunks
  set acs := min C doc.length with hacsdef
  have hacs : 0 < acs := lt_min hC hP
  have hlen : chunks.length = (doc.length + acs - 1) / acs := split_length doc C hacs
  have hceil : chunks.length = (doc.length + C - 1) / C := by
    rw [hlen, ceil_min_eq hP hC]
  have hstartlt : ∀ i, i < chunks.length → i * acs < doc.length := by
    intro i hi
    exact mul_lt_of_lt_ceil hacs hlen hi
  refine ⟨hceil, ?_, ?_, ?_, ?_⟩
  · intro i h
    rw [split_getElem doc C i hacs h]
    refine ⟨rfl, ?_, ?_, ?_⟩
    · show min (i * acs + acs) doc.length = min ((i + 1) * acs) doc.length
      rw [Nat.succ_mul]
    · show i * acs < min (i * acs + acs) doc.length
      refine lt_min ?_ (hstartlt i h)
      omega
    · show min (i * acs + acs) doc.length ≤ doc.length
      exact min_le_right _ _
  · intro i h
    rw [split_getElem doc C i hacs (Nat.lt_of_succ_lt h),
        split_getElem doc C (i + 1) hacs h]
    have hi1 : (i + 1) * acs < doc.length := hstartlt (i + 1) h
    rw [Nat.succ_mul] at hi1
    constructor
    · show min (i * acs + acs) doc.length = (i + 1) * acs
      rw [Nat.succ_mul]
      exact min_eq_left (Nat.le_of_lt hi1)
    · show min (i * acs + acs) doc.length - i * acs = acs
      rw [min_eq_left (Nat.le_of_lt hi1)]
      omega
  · intro h
    rw [split_getElem doc C 0 hacs h]
    show 0 * acs = 0
    omega
  · intro h
    have hb : chunks.length - 1 < chunks.length := by omega
    rw [split_getElem doc C (chunks.length - 1) hacs hb]
    show min ((chunks.length - 1) * acs + acs) doc.length = doc.length
      ∧ min ((chunks.length - 1) * acs + acs) doc.length
          - (chunks.length - 1) * acs ≤ acs
    have hPle : doc.length ≤ chunks.length * acs := le_mul_ceil hacs hlen
    have hlast : (chunks.length - 1) * acs + acs = chunks.length * acs := by
      cases hn : chunks.length with
      | zero => omega
      | succ m => simp [Nat.succ_mul]
    rw [hlast, min_eq_right hPle]
    refine ⟨rfl, ?_⟩
    have h2 : (chunks.length - 1) * acs < doc.length := hstartlt _ hb
    generalize hg1 : (chunks.length - 1) * acs = m at hlast h2 ⊢
    generalize hg2 : chunks.length * acs = t at hlast hPle ⊢
    omega

/-- Witness for C3 at a concrete input: a ten-page document split with
chunk size 3. -/
theorem split_chunk_ranges_cover_witness :
    (split_pdf_into_chunks (List.range 10) 3).length
        = ((List.range 10).length + 3 - 1) / 3
    ∧ (∀ i (h : i < (split_pdf_into_chunks (List.range 10) 3).length),
        ((split_pdf_into_chunks (List.range 10) 3).get ⟨i, h⟩).start_page
            = i * min 3 (List.range 10).length
        ∧ ((split_pdf_into_chunks (List.range 10) 3).get ⟨i, h⟩).end_page
            = min ((i + 1) * min 3 (List.range 10).length) (List.range 10).length
        ∧ ((split_pdf_into_chunks (List.range 10) 3).get ⟨i, h⟩).start_page
            < ((split_pdf_into_chunks (List.range 10) 3).get ⟨i, h⟩).end_page
        ∧ ((split_pdf_into_chunks (List.range 10) 3).get ⟨i, h⟩).end_page
            ≤ (List.range 10).length)
    ∧ (∀ i (h : i + 1 < (split_pdf_into_chunks (List.range 10) 3).length),
        ((split_pdf_into_chunks (List.range 10) 3).get
            ⟨i, Nat.lt_of_succ_lt h⟩).end_page
          = ((split_pdf_into_chunks (List.range 10) 3).get ⟨i + 1, h⟩).start_page
        ∧ ((split_pdf_into_chunks (List.range 10) 3).get
            ⟨i, Nat.lt_of_succ_lt h⟩).end_page
            - ((split_pdf_into_chunks (List.range 10) 3).get
                ⟨i, Nat.lt_of_succ_lt h⟩).start_page
          = min 3 (List.range 10).length)
    ∧ (∀ h : 0 < (split_pdf_into_chunks (List.range 10) 3).length,
        ((split_pdf_into_chunks (List.range 10) 3).get ⟨0, h⟩).start_page = 0)
    ∧ (∀ h : 0 < (split_pdf_into_chunks (List.range 10) 3).length,
        ((split_pdf_into_chunks (List.range 10) 3).get
            ⟨(split_pdf_into_chunks (List.range 10) 3).length - 1, by omega⟩).end_page
          = (List.range 10).length
        ∧ ((split_pdf_into_chunks (List.range 10) 3).get
            ⟨(split_pdf_into_chunks (List.range 10) 3).length - 1, by omega⟩).end_page
            - ((split_pdf_into_chunks (List.range 10) 3).get
                ⟨(split_pdf_into_chunks (List.range 10) 3).length - 1,
                  by omega⟩).start_page
          ≤ min 3 (List.range 10).length) :=
  split_chunk_ranges_cover (List.range 10) 3 (by decide) (by decide)

/-! ## C9: splitting then merging reproduces the document -/

theorem pyRange_nil (start stop step : Nat) (h : stop ≤ start) :
    pyRange start stop step = [] := by
  unfold pyRange
  split
  · rfl
  · rename_i hstep
    have h0 : stop - start = 0 := by omega
    rw [h0]
    have h1 : (0 + step - 1) / step = 0 := Nat.div_eq_of_lt (by omega)
    rw [h1]
    rfl

theorem pyRange_cons (start stop step : Nat) (hs : 0 < step) (h : start < stop) :
    pyRange start stop step = start :: pyRange (start + step) stop step := by
  have hne : ¬ step = 0 := by omega
  unfold pyRange
  rw [if_neg hne, if_neg hne]
  have hn : (stop - start + step - 1) / step
      = (stop - (start + step) + step - 1) / step + 1 := by
    rcases le_or_lt (stop - start) step with hle | hlt
    · have e1 : stop - (start + step) + step - 1 = step - 1 := by omega
      have e2 : stop - start + step - 1 = (stop - start - 1) + step := by omega
      rw [e1, e2, Nat.add_div_right _ hs, Nat.div_eq_of_lt (by omega),
        Nat.div_eq_of_lt (by omega)]
    · have e1 : stop - (start + step) + step - 1
          = (stop - start - 1 - step) + step := by omega
      have e2 : stop - start + step - 1
          = (stop - start - 1 - step) + step + step := by omega
      rw [e1, e2, Nat.add_div_right _ hs, Nat.add_div_right _ hs]
  rw [hn, List.range_succ_eq_map]
  simp only [List.map_cons, List.map_map]
  congr 1
  · omega
  · refine List.map_congr_left ?_
    intro a _
    show start + (a + 1) * step = start + step + a * step
    ring

theorem flatten_slices {α : Type} (doc : List α) (step : Nat) (hs : 0 < step) :
    ∀ d start, doc.length - start ≤ d →
    ((pyRange start doc.length step).map
        (fun st => (doc.drop st).take (min (st + step) doc.length - st))).flatten
      = doc.drop start := by
  intro d
  induction d with
  | zero =>
    intro start h
    rw [pyRange_nil _ _ _ (by omega), List.drop_eq_nil_of_le (by omega)]
    rfl
  | succ n ih =>
    intro start h
    rcases le_or_lt doc.length start with hge | hlt
    · rw [pyRange_nil _ _ _ hge, List.drop_eq_nil_of_le hge]
      rfl
    · rw [pyRange_cons _ _ _ hs hlt]
      simp only [List.map_cons, List.flatten_cons]
      rw [ih (start + step) (by omega)]
      rcases le_or_lt (start + step) doc.length with hle | hgt
      · rw [min_eq_left hle]
        have e : start + step - start = step := by omega
        rw [e]
        rw [show doc.drop (start + step) = (doc.drop start).drop step from by
          rw [List.drop_drop]]
        exact List.take_append_drop step (doc.drop start)
      · rw [min_eq_right (Nat.le_of_lt hgt)]
        rw [show doc.drop (start + step) = ([] : List α) from
          List.drop_eq_nil_of_le (by omega)]
        rw [List.append_nil]
        refine List.take_of_length_le ?_
        rw [List.length_drop]

theorem split_map_pages {α : Type} (doc : List α) (C : Nat)
    (hacs : 0 < min C doc.length) :
    (split_pdf_into_chunks doc C).map (fun c => c.pages)
      = (pyRange 0 doc.length (min C doc.length)).map
          (fun st => (doc.drop st).take
            (min (st + min C doc.length) doc.length - st)) := by
  have hsplitlen : (split_pdf_into_chunks doc C).length
      = (pyRange 0 doc.length (min C doc.length)).length := by
    simp [split_pdf_into_chunks]
  apply List.ext_getElem
  · simp [hsplitlen]
  · intro i h1 h2
    have hi : i < (split_pdf_into_chunks doc C).length := by
      simpa using h1
    have hpr : i < (pyRange 0 doc.length (min C doc.length)).length := by
      simpa using h2
    rw [List.getElem_map, List.getElem_map]
    have hs := split_getElem doc C i hacs hi
    simp only [List.get_eq_getElem] at hs
    rw [hs]
    have hr := pyRange_getElem 0 doc.length (min C doc.length) i hacs hpr
    simp only [List.get_eq_getElem] at hr
    rw [hr]
    simp

/-- C9: for a readable document of `P ≥ 1` pages and chunk size `C ≥ 1`,
splitting and then merging the chunk documents in their original order,
with no transformation applied, reproduces the document itself (hence its
unit count `P`), and in general the merge output's unit count is the sum of
the unit counts of the merged chunks in order. -/
theorem split_merge_round_trip {α : Type} (doc : List α) (C : Nat)
    (hP : 1 ≤ doc.length) (hC : 1 ≤ C) :
    merge_chunks ((split_pdf_into_chunks doc C).map (fun c => c.pages)) = doc
    ∧ (merge_chunks ((split_pdf_into_chunks doc C).map (fun c => c.pages))).length
        = doc.length
    ∧ ∀ (chunks : List (List α)),
        (merge_chunks chunks).length = (chunks.map List.length).sum := by
  have hacs : 0 < min C doc.length := lt_min hC hP
  have hrt : merge_chunks ((split_pdf_into_chunks doc C).map (fun c => c.pages))
      = doc := by
    unfold merge_chunks
    rw [split_map_pages doc C hacs]
    have hf := flatten_slices doc (min C doc.length) hacs doc.length 0 (by omega)
    simpa using hf
  refine ⟨hrt, by rw [hrt], ?_⟩
  intro chunks
  unfold merge_chunks
  exact List.length_flatten chunks

/-- Witness for C9 at a concrete input: a ten-page document with chunk
size 3 survives the split/merge round trip. -/
theorem split_merge_round_trip_witness :
    merge_chunks ((split_pdf_into_chunks (List.range 10) 3).map (fun c => c.pages))
        = List.range 10
    ∧ (merge_chunks ((split_pdf_into_chunks (List.range 10) 3).map
          (fun c => c.pages))).length = (List.range 10).length
    ∧ ∀ (chunks : List (List Nat)),
        (merge_chunks chunks).length = (chunks.map List.length).sum :=
  split_merge_round_trip (List.range 10) 3 (by decide) (by decide)

/-! ## C8: queue position is the 1-indexed rank by queued_at -/

theorem find_pos_eq_zero_iff (l : List Job) (job_id : String) :
    find_pos l job_id = 0 ↔ ∀ j ∈ l, ¬ j.job_id = job_id := by
  induction l with
  | nil => simp [find_pos]
  | cons a t ih =>
    simp only [find_pos]
    by_cases ha : a.job_id = job_id
    · rw [if_pos (by simpa using ha)]
      exact iff_of_false one_ne_zero
        (fun hall => hall a (List.mem_cons_self a t) ha)
    · rw [if_neg (by simpa using ha)]
      cases hfp : find_pos t job_id with
      | zero =>
        change (0 : Nat) = 0 ↔ _
        simp only [eq_self_iff_true, true_iff]
        intro j hj
        rcases List.mem_cons.mp hj with rfl | hjt
        · exact ha
        · exact (ih.mp hfp) j hjt
      | succ k =>
        change k + 1 + 1 = 0 ↔ _
        refine iff_of_false (by omega) ?_
        intro hall
        have h0 : find_pos t job_id = 0 := by
          rw [ih]
          intro j hj
          exact hall j (List.mem_cons_of_mem a hj)
        omega

theorem find_pos_spec (l : List Job) (job_id : String) :
    ∀ n, find_pos l job_id = n + 1 →
      ∃ hn : n < l.length, (l.get ⟨n, hn⟩).job_id = job_id
        ∧ ∀ m (hm : m < l.length), m < n → ¬ (l.get ⟨m, hm⟩).job_id = job_id := by
  induction l with
  | nil =>
    intro n h
    simp [find_pos] at h
  | cons a t ih =>
    intro n h
    simp only [find_pos] at h
    by_cases ha : a.job_id = job_id
    · rw [if_pos (by simpa using ha)] at h
      have hn0 : n = 0 := by omega
      subst hn0
      refine ⟨by simp, by simpa using ha, ?_⟩
      intro m hm hmn
      exact absurd hmn (by omega)
    · rw [if_neg (by simpa using ha)] at h
      cases hfp : find_pos t job_id with
      | zero =>
        rw [hfp] at h
        change (0 : Nat) = n + 1 at h
        omega
      | succ k =>
        rw [hfp] at h
        change k + 1 + 1 = n + 1 at h
        have hnk : n = k + 1 := by omega
        subst hnk
        obtain ⟨hk, hkid, hkmin⟩ := ih k hfp
        refine ⟨by simpa using Nat.succ_lt_succ hk, by simpa using hkid, ?_⟩
        intro m hm hmn
        cases m with
        | zero => simpa using ha
        | succ m2 =>
          have hm2 : m2 < t.length := by simpa using hm
          have := hkmin m2 hm2 (by omega)
          simpa using this

theorem eq_of_mem_same_id (s : List Job) (hnd : (s.map Job.job_id).Nodup)
    (j k : Job) (hj : j ∈ s) (hk : k ∈ s) (hid : k.job_id = j.job_id) :
    k = j := by
  induction s with
  | nil => cases hj
  | cons a t ih =>
    simp only [List.map_cons, List.nodup_cons] at hnd
    rcases List.mem_cons.mp hj with rfl | hjt
    · rcases List.mem_cons.mp hk with rfl | hkt
      · rfl
      · have : j.job_id ∈ t.map Job.job_id := by
          rw [← hid]
          exact List.mem_map_of_mem Job.job_id hkt
        exact absurd this hnd.1
    · rcases List.mem_cons.mp hk with rfl | hkt
      · have : k.job_id ∈ t.map Job.job_id := by
          rw [hid]
          exact List.mem_map_of_mem Job.job_id hjt
        exact absurd this hnd.1
      · exact ih hnd.2 hjt hkt

theorem find_key_of_mem (s : List Job) (j : Job) (hj : j ∈ s)
    (hnd : (s.map Job.job_id).Nodup) :
    s.find? (fun k => k.job_id == j.job_id) = some j := by
  induction s with
  | nil => cases hj
  | cons a t ih =>
    simp only [List.map_cons, List.nodup_cons] at hnd
    rcases List.mem_cons.mp hj with rfl | hjt
    · simp [List.find?]
    · have hne : ¬ a.job_id = j.job_id := by
        intro he
        have : j.job_id ∈ t.map Job.job_id := List.mem_map_of_mem Job.job_id hjt
        rw [← he] at this
        exact hnd.1 this
      rw [List.find?]
      rw [show (a.job_id == j.job_id) = false from by simpa using hne]
      exact ih hjt hnd.2

/-- C8: `get_queue_position` returns 0 for an absent or non-queued job; for
queued jobs (in a ledger with distinct ids, as a dict guarantees) it returns
a 1-indexed rank between 1 and the number of queued jobs, the job with the
strictly earliest `queued_at` gets position 1, and positions strictly
increase with `queued_at`. -/
theorem queue_position_rank (s : List Job) (hnd : (s.map Job.job_id).Nodup) :
    (∀ job_id, lookupJob s job_id = none → get_queue_position s job_id = 0)
    ∧ (∀ job_id j, lookupJob s job_id = some j → ¬ j.status = "queued" →
        get_queue_position s job_id = 0)
    ∧ (∀ j, j ∈ s → j.status = "queued" →
        1 ≤ get_queue_position s j.job_id
        ∧ get_queue_position s j.job_id ≤ get_queue_count s)
    ∧ (∀ j, j ∈ s → j.status = "queued" →
        (∀ k, k ∈ s → k.status = "queued" → ¬ k.job_id = j.job_id →
          j.queued_at < k.queued_at) →
        get_queue_position s j.job_id = 1)
    ∧ (∀ j1 j2, j1 ∈ s → j2 ∈ s → j1.status = "queued" → j2.status = "queued" →
        j1.queued_at < j2.queued_at →
        get_queue_position s j1.job_id < get_queue_position s j2.job_id) := by
  have hperm : (sort_queued s).Perm (s.filter (fun j => j.status == "queued")) :=
    List.perm_insertionSort _ _
  have hsorted : List.Sorted jobLE (sort_queued s) :=
    List.sorted_insertionSort jobLE (s.filter (fun j => j.status == "queued"))
  have hpw := List.pairwise_iff_getElem.mp hsorted
  have hmemS : ∀ j, j ∈ s → j.status = "queued" → j ∈ sort_queued s := by
    intro j hj hq
    exact (hperm.mem_iff).mpr (List.mem_filter.mpr ⟨hj, by simpa using hq⟩)
  have hndS : ((sort_queued s).map Job.job_id).Nodup := by
    have hsub : ((s.filter (fun j => j.status == "queued")).map Job.job_id).Sublist
        (s.map Job.job_id) := List.Sublist.map _ (List.filter_sublist s)
    exact ((hperm.map Job.job_id).nodup_iff).mpr (List.Nodup.sublist hsub hnd)
  have hSnd : (sort_queued s).Nodup := List.Nodup.of_map _ hndS
  have hpos : ∀ j, j ∈ s → j.status = "queued" →
      ∃ n, ∃ hn : n < (sort_queued s).length,
        (sort_queued s).get ⟨n, hn⟩ = j
        ∧ get_queue_position s j.job_id = n + 1 := by
    intro j hj hq
    have hlook : lookupJob s j.job_id = some j := find_key_of_mem s j hj hnd
    have hgp : get_queue_position s j.job_id
        = find_pos (sort_queued s) j.job_id := by
      simp [get_queue_position, hlook, hq]
    have hjS : j ∈ sort_queued s := hmemS j hj hq
    cases hfp : find_pos (sort_queued s) j.job_id with
    | zero =>
      exact absurd rfl (((find_pos_eq_zero_iff _ _).mp hfp) j hjS)
    | succ n =>
      obtain ⟨hn, hid, _⟩ := find_pos_spec _ _ n hfp
      have hjeq : (sort_queued s).get ⟨n, hn⟩ = j :=
        eq_of_mem_same_id (sort_queued s) hndS j _ hjS (List.get_mem _ _ _) hid
      exact ⟨n, hn, hjeq, by rw [hgp, hfp]⟩
  refine ⟨?_, ?_, ?_, ?_, ?_⟩
  · intro job_id h
    simp [get_queue_position, h]
  · intro job_id j h hq
    simp [get_queue_position, h, hq]
  · intro j hj hq
    obtain ⟨n, hn, _, hpos1⟩ := hpos j hj hq
    rw [hpos1]
    have hlenS : (sort_queued s).length = get_queue_count s := hperm.length_eq
    omega
  · intro j hj hq hmin
    obtain ⟨n, hn, hget, hpos1⟩ := hpos j hj hq
    rw [hpos1]
    by_contra hne
    have hn0 : 0 < n := by omega
    have h0 : 0 < (sort_queued s).length := by omega
    have hk0mem : (sort_queued s).get ⟨0, h0⟩ ∈ sort_queued s := List.get_mem _ _ _
    have hk0filter : (sort_queued s).get ⟨0, h0⟩ ∈ s
        ∧ ((sort_queued s).get ⟨0, h0⟩).status = "queued" := by
      have h2 := List.mem_filter.mp ((hperm.mem_iff).mp hk0mem)
      exact ⟨h2.1, by simpa using h2.2⟩
    have hle : jobLE ((sort_queued s).get ⟨0, h0⟩) ((sort_queued s).get ⟨n, hn⟩) := by
      have := hpw 0 n h0 hn hn0
      simpa [List.get_eq_getElem] using this
    rw [hget] at hle
    by_cases hid : ((sort_queued s).get ⟨0, h0⟩).job_id = j.job_id
    · have hk0j : (sort_queued s).get ⟨0, h0⟩ = j :=
        eq_of_mem_same_id _ hndS j _ (hmemS j hj hq) hk0mem hid
      have hgeq : (sort_queued s).get ⟨0, h0⟩ = (sort_queued s).get ⟨n, hn⟩ := by
        rw [hget, hk0j]
      have h0n : (0 : Nat) = n := by
        have hgeq2 := hgeq
        rw [List.get_eq_getElem, List.get_eq_getElem] at hgeq2
        exact (hSnd.getElem_inj_iff).mp hgeq2
      omega
    · have hqlt := hmin _ hk0filter.1 hk0filter.2 hid
      have : ((sort_queued s).get ⟨0, h0⟩).queued_at ≤ j.queued_at := hle
      omega
  · intro j1 j2 hj1 hj2 hq1 hq2 hlt
    obtain ⟨n1, hn1, hget1, hpos1⟩ := hpos j1 hj1 hq1
    obtain ⟨n2, hn2, hget2, hpos2⟩ := hpos j2 hj2 hq2
    rw [hpos1, hpos2]
    have hne : ¬ n2 ≤ n1 := by
      intro hle
      rcases Nat.eq_or_lt_of_le hle with heq | hlt2
      · subst heq
        rw [hget1] at hget2
        rw [hget2] at hlt
        omega
      · have hpair := hpw n2 n1 hn2 hn1 hlt2
        have hpair2 : jobLE ((sort_queued s).get ⟨n2, hn2⟩)
            ((sort_queued s).get ⟨n1, hn1⟩) := by
          simpa [List.get_eq_getElem] using hpair
        rw [hget1, hget2] at hpair2
        have : j2.queued_at ≤ j1.queued_at := hpair2
        omega
    omega

/-- Witness for C8 at a concrete input: two queued jobs with distinct
`queued_at`; a missing id gets position 0, the older job has position 1,
and the newer job's position is strictly larger. -/
theorem queue_position_rank_witness :
    get_queue_position twoQueuedLedger "nope" = 0
    ∧ get_queue_position twoQueuedLedger "A" = 1
    ∧ get_queue_position twoQueuedLedger "A"
        < get_queue_position twoQueuedLedger "B" := by
  refine ⟨?_, ?_, ?_⟩
  · exact (queue_position_rank twoQueuedLedger (by decide)).1 "nope" (by decide)
  · exact (queue_position_rank twoQueuedLedger (by decide)).2.2.2.1 jobA5
      (by decide) (by decide) (by decide)
  · exact (queue_position_rank twoQueuedLedger (by decide)).2.2.2.2 jobA5 jobB9
      (by decide) (by decide) (by decide) (by decide) (by decide)

/-! ## C1: PopNext admits on resources alone, not on a single-job rule -/

theorem processing_count_update (s : List Job) (j j' : Job)
    (hnd : (s.map Job.job_id).Nodup) (hj : j ∈ s)
    (hq : ¬ j.status = "processing") (hp : j'.status = "processing") :
    get_processing_count (updateJob s j.job_id (fun _ => j'))
      = get_processing_count s + 1 := by
  induction s with
  | nil => cases hj
  | cons a t ih =>
    simp only [List.map_cons, List.nodup_cons] at hnd
    by_cases ha : a.job_id = j.job_id
    · have hja : j = a := by
        rcases List.mem_cons.mp hj with rfl | hjt
        · rfl
        · exfalso
          have hmm : j.job_id ∈ t.map Job.job_id := List.mem_map_of_mem _ hjt
          rw [← ha] at hmm
          exact hnd.1 hmm
      subst hja
      have ht : t.map (fun k => if k.job_id == j.job_id then j' else k) = t := by
        have hall : ∀ k ∈ t, (if k.job_id == j.job_id then j' else k) = k := by
          intro k hk
          rw [if_neg]
          simp only [beq_iff_eq]
          intro he
          have hmm : k.job_id ∈ t.map Job.job_id := List.mem_map_of_mem _ hk
          rw [he] at hmm
          exact hnd.1 hmm
        calc t.map (fun k => if k.job_id == j.job_id then j' else k)
            = t.map id := List.map_congr_left hall
        _ = t := List.map_id t
      unfold updateJob get_processing_count
      simp only [List.map_cons, ht]
      rw [show (if j.job_id == j.job_id then j' else j) = j' from by simp]
      rw [List.filter_cons, List.filter_cons]
      rw [show (j'.status == "processing") = true from by simpa using hp]
      rw [show (j.status == "processing") = false from by simpa using hq]
      simp
    · have hjt : j ∈ t := by
        rcases List.mem_cons.mp hj with rfl | hjt
        · exact absurd rfl ha
        · exact hjt
      have hih := ih hnd.2 hjt
      unfold updateJob get_processing_count at hih ⊢
      simp only [List.map_cons]
      rw [show (if a.job_id == j.job_id then j' else a) = a from by
        rw [if_neg]
        simpa using ha]
      rw [List.filter_cons, List.filter_cons]
      cases hcond : (a.status == "processing") with
      | true => simpa using hih
      | false => simpa using hih

theorem pop_next_state_cases (s : List Job) (avail_ram disk_free now : Nat) :
    (pop_next_job s avail_ram disk_free now).2 = s
    ∨ ∃ next rest, sort_queued s = next :: rest
        ∧ next ∈ s ∧ next.status = "queued"
        ∧ (pop_next_job s avail_ram disk_free now).2
          = updateJob s next.job_id
              (fun _ => { next with status := "processing",
                                    started_at := some now }) := by
  unfold pop_next_job
  cases hsq : sort_queued s with
  | nil => exact Or.inl rfl
  | cons next restq =>
    have hmem : next ∈ sort_queued s := by
      rw [hsq]
      exact List.mem_cons_self _ _
    have hf := List.mem_filter.mp ((List.perm_insertionSort _ _).mem_iff.mp hmem)
    by_cases hc1 : ((avail_ram : Int) - (estimated_ram next : Int)
        < (config.MIN_RAM_BUFFER : Int))
    · left
      simp [hc1]
    · by_cases hc2 : ((disk_free : Int) - (estimated_disk next : Int)
          < (config.MIN_DISK_BUFFER : Int))
      · left
        simp [hc1, hc2]
      · right
        exact ⟨next, restq, rfl, hf.1, by simpa using hf.2, by simp [hc1, hc2]⟩

/-- C1 (amended): whenever the queue is non-empty and the estimated resource
needs of the oldest queued job leave the configured RAM and disk buffers
intact, `pop_next_job` transitions that job to `processing` — with no regard
to how many jobs are already processing.  Each such successful pop increases
the number of `processing` jobs by exactly one (given the dict's distinct
ids), so the processing count is bounded only by resource estimates, not by
one. -/
theorem pop_next_concurrent_admission (s : List Job)
    (avail_ram disk_free now : Nat) (j : Job) (rest : List Job)
    (hsort : sort_queued s = j :: rest)
    (hram : (config.MIN_RAM_BUFFER : Int)
      ≤ (avail_ram : Int) - (estimated_ram j : Int))
    (hdisk : (config.MIN_DISK_BUFFER : Int)
      ≤ (disk_free : Int) - (estimated_disk j : Int)) :
    j.status = "queued"
    ∧ (pop_next_job s avail_ram disk_free now).1
        = some { j with status := "processing", started_at := some now }
    ∧ ((s.map Job.job_id).Nodup →
        get_processing_count (pop_next_job s avail_ram disk_free now).2
          = get_processing_count s + 1) := by
  have hjmem : j ∈ sort_queued s := by
    rw [hsort]
    exact List.mem_cons_self _ _
  have hjfilter := List.mem_filter.mp
    ((List.perm_insertionSort _ _).mem_iff.mp hjmem)
  have hq : j.status = "queued" := by simpa using hjfilter.2
  have hc1 : ¬ ((avail_ram : Int) - (estimated_ram j : Int)
      < (config.MIN_RAM_BUFFER : Int)) := by omega
  have hc2 : ¬ ((disk_free : Int) - (estimated_disk j : Int)
      < (config.MIN_DISK_BUFFER : Int)) := by omega
  have hpop : pop_next_job s avail_ram disk_free now
      = (some { j with status := "processing", started_at := some now },
         updateJob s j.job_id
           (fun _ => { j with status := "processing", started_at := some now })) := by
    unfold pop_next_job
    rw [hsort]
    simp [hc1, hc2]
  refine ⟨hq, by rw [hpop], ?_⟩
  intro hnd
  rw [hpop]
  refine processing_count_update s j _ hnd hjfilter.1 ?_ rfl
  rw [hq]
  decide

/-- Witness for C1 at a concrete input: with one job already processing, one
queued job and ample resources, the pop succeeds and raises the processing
count by one. -/
theorem pop_next_concurrent_admission_witness :
    jobA5.status = "queued"
    ∧ (pop_next_job [jobP, jobA5] 1000000000000 1000000000000 7).1
        = some { jobA5 with status := "processing", started_at := some 7 }
    ∧ (([jobP, jobA5].map Job.job_id).Nodup →
        get_processing_count
            (pop_next_job [jobP, jobA5] 1000000000000 1000000000000 7).2
          = get_processing_count [jobP, jobA5] + 1) :=
  pop_next_concurrent_admission [jobP, jobA5] 1000000000000 1000000000000 7
    jobA5 [] (by decide) (by decide) (by decide)

/-! ## C2: lifecycle moves forward when each operation is applied under its
intended precondition -/

theorem mem_setJob {s : List Job} {r k : Job} (hk : k ∈ setJob s r) :
    k ∈ s ∨ k = r := by
  unfold setJob at hk
  by_cases hany : s.any (fun x => x.job_id == r.job_id) = true
  · rw [if_pos hany] at hk
    rcases List.mem_map.mp hk with ⟨a, ha, hak⟩
    by_cases hc : (a.job_id == r.job_id) = true
    · right
      rw [← hak, if_pos hc]
    · left
      rw [← hak, if_neg hc]
      exact ha
  · rw [if_neg hany] at hk
    rcases List.mem_append.mp hk with h | h
    · exact Or.inl h
    · right
      simpa using h

theorem get_of_list_eq {l l' : List Job} (he : l = l') (i : Nat)
    (h1 : i < l'.length) (h2 : i < l.length) :
    l.get ⟨i, h2⟩ = l'.get ⟨i, h1⟩ := by
  subst he
  rfl

theorem update_forward (s : List Job) (job_id : String) (f : Job → Job)
    (hf : ∀ j, j ∈ s → j.job_id = job_id →
      forward_lifecycle j.status (f j).status)
    (i : Nat) (h1 : i < s.length) (h2 : i < (updateJob s job_id f).length) :
    forward_lifecycle ((s.get ⟨i, h1⟩).status)
      (((updateJob s job_id f).get ⟨i, h2⟩).status) := by
  have hval : (updateJob s job_id f).get ⟨i, h2⟩
      = if ((s.get ⟨i, h1⟩).job_id == job_id) = true then f (s.get ⟨i, h1⟩)
        else s.get ⟨i, h1⟩ := by
    simp [updateJob, List.get_eq_getElem, List.getElem_map]
  rw [hval]
  by_cases hc : ((s.get ⟨i, h1⟩).job_id == job_id) = true
  · rw [if_pos hc]
    exact hf _ (List.get_mem _ _ _) (by simpa using hc)
  · rw [if_neg hc]
    exact Or.inl rfl

/-- C2 (amended): the mark operations write their target state
unconditionally, so the forward-only lifecycle holds exactly when each
operation is applied under its intended precondition: Add only with a fresh
id (the new record starts at `queued`), MarkFinished and MarkError only on a
job in `processing`, MarkDownloaded only on a job in `finished`;
`pop_next_job` needs no precondition beyond the ledger's distinct ids, since
it only ever moves a `queued` job to `processing`.  Under those guards every
job's state either stays put or follows
`queued → processing → {finished → downloaded} | error`. -/
theorem lifecycle_forward_under_guards (s : List Job) :
    (∀ job_id session_id file_path file_size chunk_size now,
      (∀ j, j ∈ s → ¬ j.job_id = job_id) →
      ∀ k, k ∈ add_job s job_id session_id file_path file_size chunk_size now →
        k ∈ s ∨ (k.status = "queued" ∧ k.job_id = job_id))
    ∧ (∀ avail_ram disk_free now,
        (s.map Job.job_id).Nodup →
        ∀ i (h1 : i < s.length)
          (h2 : i < (pop_next_job s avail_ram disk_free now).2.length),
          forward_lifecycle ((s.get ⟨i, h1⟩).status)
            (((pop_next_job s avail_ram disk_free now).2.get ⟨i, h2⟩).status))
    ∧ (∀ job_id now,
        (∀ j, j ∈ s → j.job_id = job_id → j.status = "processing") →
        ∀ i (h1 : i < s.length) (h2 : i < (mark_finished s job_id now).length),
          forward_lifecycle ((s.get ⟨i, h1⟩).status)
            (((mark_finished s job_id now).get ⟨i, h2⟩).status))
    ∧ (∀ job_id msg now,
        (∀ j, j ∈ s → j.job_id = job_id → j.status = "processing") →
        ∀ i (h1 : i < s.length) (h2 : i < (mark_error s job_id msg now).length),
          forward_lifecycle ((s.get ⟨i, h1⟩).status)
            (((mark_error s job_id msg now).get ⟨i, h2⟩).status))
    ∧ (∀ job_id now,
        (∀ j, j ∈ s → j.job_id = job_id → j.status = "finished") →
        ∀ i (h1 : i < s.length) (h2 : i < (mark_downloaded s job_id now).length),
          forward_lifecycle ((s.get ⟨i, h1⟩).status)
            (((mark_downloaded s job_id now).get ⟨i, h2⟩).status)) := by
  refine ⟨?_, ?_, ?_, ?_, ?_⟩
  · intro job_id session_id file_path file_size chunk_size now hfresh k hk
    simp only [add_job] at hk
    rcases mem_setJob hk with h | rfl
    · exact Or.inl h
    · exact Or.inr ⟨rfl, rfl⟩
  · intro avail_ram disk_free now hnd i h1 h2
    rcases pop_next_state_cases s avail_ram disk_free now with heq |
      ⟨next, restq, hsq, hnmem, hnq, heq⟩
    · rw [get_of_list_eq heq i (heq ▸ h2) h2]
      exact Or.inl rfl
    · have hlen : i < (updateJob s next.job_id
          (fun _ => { next with status := "processing",
                                started_at := some now })).length := by
        simpa [updateJob] using h1
      rw [get_of_list_eq heq i hlen h2]
      refine update_forward s next.job_id _ ?_ i h1 hlen
      intro j hj hid
      have hjn : j = next := eq_of_mem_same_id s hnd next j hnmem hj hid
      subst hjn
      right
      left
      exact ⟨hnq, rfl⟩
  · intro job_id now hguard i h1 h2
    by_cases hany : s.any (fun k => k.job_id == job_id) = true
    · have heq : mark_finished s job_id now = updateJob s job_id (fun j =>
          { j with status := "finished", finished_at := some now,
                   download_window_expires := some (now + 60) }) := by
        unfold mark_finished
        rw [if_pos hany]
      have hlen : i < (updateJob s job_id (fun j =>
          { j with status := "finished", finished_at := some now,
                   download_window_expires := some (now + 60) })).length := by
        simpa [updateJob] using h1
      rw [get_of_list_eq heq i hlen h2]
      refine update_forward s job_id _ ?_ i h1 hlen
      intro j hj hid
      right
      right
      left
      exact ⟨hguard j hj hid, rfl⟩
    · have heq : mark_finished s job_id now = s := by
        unfold mark_finished
        rw [if_neg hany]
      rw [get_of_list_eq heq i h1 h2]
      exact Or.inl rfl
  · intro job_id msg now hguard i h1 h2
    by_cases hany : s.any (fun k => k.job_id == job_id) = true
    · have heq : mark_error s job_id msg now = updateJob s job_id (fun j =>
          { j with status := "error", error := some msg,
                   finished_at := some now }) := by
        unfold mark_error
        rw [if_pos hany]
      have hlen : i < (updateJob s job_id (fun j =>
          { j with status := "error", error := some msg,
                   finished_at := some now })).length := by
        simpa [updateJob] using h1
      rw [get_of_list_eq heq i hlen h2]
      refine update_forward s job_id _ ?_ i h1 hlen
      intro j hj hid
      right
      right
      right
      left
      exact ⟨hguard j hj hid, rfl⟩
    · have heq : mark_error s job_id msg now = s := by
        unfold mark_error
        rw [if_neg hany]
      rw [get_of_list_eq heq i h1 h2]
      exact Or.inl rfl
  · intro job_id now hguard i h1 h2
    by_cases hany : s.any (fun k => k.job_id == job_id) = true
    · have heq : mark_downloaded s job_id now = updateJob s job_id (fun j =>
          { j with status := "downloaded", downloaded_at := some now }) := by
        unfold mark_downloaded
        rw [if_pos hany]
      have hlen : i < (updateJob s job_id (fun j =>
          { j with status := "downloaded", downloaded_at := some now })).length := by
        simpa [updateJob] using h1
      rw [get_of_list_eq heq i hlen h2]
      refine update_forward s job_id _ ?_ i h1 hlen
      intro j hj hid
      right
      right
      right
      right
      exact ⟨hguard j hj hid, rfl⟩
    · have heq : mark_downloaded s job_id now = s := by
        unfold mark_downloaded
        rw [if_neg hany]
      rw [get_of_list_eq heq i h1 h2]
      exact Or.inl rfl

/-- Witness for C2 at a concrete input: marking the processing job `P`
finished is a forward step. -/
theorem lifecycle_forward_under_guards_witness :
    forward_lifecycle (([jobP].get ⟨0, by decide⟩).status)
      (((mark_finished [jobP] "P" 7).get ⟨0, by decide⟩).status) :=
  (lifecycle_forward_under_guards [jobP]).2.2.1 "P" 7 (by decide) 0
    (by decide) (by decide)

/-! ## C6: the download window stamp across the reachable states -/

/-- C6 (amended): in every ledger state reachable by the queue's operations,
a job in state `finished` always carries `download_window_expires`, and a set
`download_window_expires` implies the job is in `finished`, `downloaded` or
`error` — the stamp is set by MarkFinished (to now + one minute, together
with `finished_at`) and is never cleared afterwards, so it survives into
`downloaded` (and `error`); it is therefore not set only in state
`finished`. -/
theorem download_window_invariant :
    (∀ s, Reachable s → ∀ j, j ∈ s →
      (j.status = "finished" → j.download_window_expires.isSome = true)
      ∧ (j.download_window_expires.isSome = true →
          j.status = "finished" ∨ j.status = "downloaded" ∨ j.status = "error"))
    ∧ (∀ s job_id now, ∀ k, k ∈ mark_finished s job_id now →
        k.job_id = job_id →
        k.status = "finished" ∧ k.finished_at = some now
        ∧ k.download_window_expires = some (now + 60)) := by
  constructor
  · intro s hr
    induction hr with
    | init =>
      intro j hj
      cases hj
    | add s' job_id session_id file_path file_size chunk_size now hr ih =>
      intro j hj
      simp only [add_job] at hj
      rcases mem_setJob hj with h | rfl
      · exact ih j h
      · refine ⟨fun hf => by simp at hf, fun hs => by simp at hs⟩
    | pop s' avail_ram disk_free now hr ih =>
      intro j hj
      rcases pop_next_state_cases s' avail_ram disk_free now with heq |
        ⟨next, restq, hsq, hnmem, hnq, heq⟩
      · rw [heq] at hj
        exact ih j hj
      · rw [heq] at hj
        rcases List.mem_map.mp hj with ⟨a, ha, haj⟩
        by_cases hc : (a.job_id == next.job_id) = true
        · rw [if_pos hc] at haj
          subst haj
          refine ⟨fun hf => by simp at hf, fun hs => ?_⟩
          have hs2 : next.download_window_expires.isSome = true := hs
          have h2 := (ih next hnmem).2 hs2
          rw [hnq] at h2
          rcases h2 with h | h | h <;> simp at h
        · rw [if_neg hc] at haj
          subst haj
          exact ih a ha
    | finish s' job_id now hr ih =>
      intro j hj
      by_cases hany : s'.any (fun k => k.job_id == job_id) = true
      · have heq : mark_finished s' job_id now = updateJob s' job_id (fun k =>
            { k with status := "finished", finished_at := some now,
                     download_window_expires := some (now + 60) }) := by
          unfold mark_finished
          rw [if_pos hany]
        rw [heq] at hj
        rcases List.mem_map.mp hj with ⟨a, ha, haj⟩
        by_cases hc : (a.job_id == job_id) = true
        · rw [if_pos hc] at haj
          subst haj
          exact ⟨fun _ => rfl, fun _ => Or.inl rfl⟩
        · rw [if_neg hc] at haj
          subst haj
          exact ih a ha
      · have heq : mark_finished s' job_id now = s' := by
          unfold mark_finished
          rw [if_neg hany]
        rw [heq] at hj
        exact ih j hj
    | err s' job_id msg now hr ih =>
      intro j hj
      by_cases hany : s'.any (fun k => k.job_id == job_id) = true
      · have heq : mark_error s' job_id msg now = updateJob s' job_id (fun k =>
            { k with status := "error", error := some msg,
                     finished_at := some now }) := by
          unfold mark_error
          rw [if_pos hany]
        rw [heq] at hj
        rcases List.mem_map.mp hj with ⟨a, ha, haj⟩
        by_cases hc : (a.job_id == job_id) = true
        · rw [if_pos hc] at haj
          subst haj
          refine ⟨fun hf => by simp at hf, fun _ => Or.inr (Or.inr rfl)⟩
        · rw [if_neg hc] at haj
          subst haj
          exact ih a ha
      · have heq : mark_error s' job_id msg now = s' := by
          unfold mark_error
          rw [if_neg hany]
        rw [heq] at hj
        exact ih j hj
    | download s' job_id now hr ih =>
      intro j hj
      by_cases hany : s'.any (fun k => k.job_id == job_id) = true
      · have heq : mark_downloaded s' job_id now = updateJob s' job_id (fun k =>
            { k with status := "downloaded", downloaded_at := some now }) := by
          unfold mark_downloaded
          rw [if_pos hany]
        rw [heq] at hj
        rcases List.mem_map.mp hj with ⟨a, ha, haj⟩
        by_cases hc : (a.job_id == job_id) = true
        · rw [if_pos hc] at haj
          subst haj
          refine ⟨fun hf => by simp at hf, fun _ => Or.inr (Or.inl rfl)⟩
        · rw [if_neg hc] at haj
          subst haj
          exact ih a ha
      · have heq : mark_downloaded s' job_id now = s' := by
          unfold mark_downloaded
          rw [if_neg hany]
        rw [heq] at hj
        exact ih j hj
    | cleanup s' now hr ih =>
      intro j hj
      exact ih j (List.mem_filter.mp hj).1
    | delete s' job_id hr ih =>
      intro j hj
      unfold delete_job at hj
      by_cases hany : s'.any (fun k => k.job_id == job_id) = true
      · rw [if_pos hany] at hj
        exact ih j (List.mem_filter.mp hj).1
      · rw [if_neg hany] at hj
        exact ih j hj
  · intro s job_id now k hk hkid
    by_cases hany : s.any (fun x => x.job_id == job_id) = true
    · have heq : mark_finished s job_id now = updateJob s job_id (fun x =>
          { x with status := "finished", finished_at := some now,
                   download_window_expires := some (now + 60) }) := by
        unfold mark_finished
        rw [if_pos hany]
      rw [heq] at hk
      rcases List.mem_map.mp hk with ⟨a, ha, hak⟩
      by_cases hc : (a.job_id == job_id) = true
      · rw [if_pos hc] at hak
        subst hak
        exact ⟨rfl, rfl, rfl⟩
      · rw [if_neg hc] at hak
        subst hak
        exact absurd hkid (by simpa using hc)
    · have heq : mark_finished s job_id now = s := by
        unfold mark_finished
        rw [if_neg hany]
      rw [heq] at hk
      exfalso
      rw [List.any_eq_true] at hany
      exact hany ⟨k, hk, by simpa using hkid⟩

/-- Witness for C6 at a concrete input: the reachable state after Add and
MarkFinished satisfies the invariant for its single record, and MarkFinished
stamped `finished_at` and the one-minute window on it. -/
theorem download_window_invariant_witness :
    ((finishedA.status = "finished" →
        finishedA.download_window_expires.isSome = true)
      ∧ (finishedA.download_window_expires.isSome = true →
          finishedA.status = "finished" ∨ finishedA.status = "downloaded"
            ∨ finishedA.status = "error"))
    ∧ (finishedA.status = "finished" ∧ finishedA.finished_at = some 1
        ∧ finishedA.download_window_expires = some (1 + 60)) :=
  ⟨download_window_invariant.1 markFinishedState
      (Reachable.finish _ _ _
        (Reachable.add _ _ _ _ _ _ _ Reachable.init)) finishedA (by decide),
   download_window_invariant.2 (add_job [] "A" "sess" "p" 1000 10 0) "A" 1
      finishedA (by decide) (by decide)⟩
